import Mathlib

/-!
Verification of the cache-coherent request orchestration layer of the
ComfyUI-Image-Browsing frontend.

The development shallowly embeds the TypeScript sources:
  * `hooks/folderCache` (FolderCache class: entry store with validators,
    LRU access order, max-age expiry) — the unnamed source file defining
    `class FolderCache`;
  * `hooks/request.ts` (`requestWithCache`: conditional reads with
    If-None-Match, 304 handling, cache fill);
  * `hooks/requestManager.ts` (`deduplicatedRequest`, the prefetch queue
    `queuePrefetch` / `processPrefetchQueue` / `fetchAndCache`, and the
    optimistic mutation helpers such as `optimisticRemove`);
  * the SmartPrefetcher access-history predictor (`recordAccess`,
    `getFrequentPaths`);
  * the navigation orchestration of `hooks/explorer.ts` (`refresh`,
    `forceRefresh`, navigation-id based discarding of stale results).

JavaScript `Map` objects are embedded as association lists in insertion
order (`set` on a present key updates in place, on an absent key appends;
`delete` removes the unique binding).  Time (`Date.now()`) is passed
explicitly as a `Nat`.  Network responses are inputs: a server is a
function from the optional `If-None-Match` header value to a response.
Asynchronous code is embedded as explicit state passing: each `await` of a
network read splits an operation into a synchronous start (which registers
a pending completion) and a completion step applied when the read settles;
the JavaScript event loop runs these steps atomically and in any order,
which the trace-based theorems quantify over.  Persistence to
`sessionStorage` / `localStorage` is outside the model: `saveToStorage`
does not change the in-memory map when storage succeeds, and storage
failures are environmental.
-/

/-! ## Association lists: JavaScript `Map` in insertion order -/

/-- `Map.get`: first binding of the key, if any (keys are unique in a
real `Map`, so "first" is "the" binding). -/
def alGet {β : Type} : List (String × β) → String → Option β
  | [], _ => none
  | (k, v) :: rest, key => if k = key then some v else alGet rest key

/-- `Map.set`: update the binding in place when the key is present,
append a new binding otherwise. -/
def alSet {β : Type} : List (String × β) → String → β → List (String × β)
  | [], key, val => [(key, val)]
  | (k, v) :: rest, key, val =>
      if k = key then (k, val) :: rest else (k, v) :: alSet rest key val

/-- `Map.delete`: remove the (unique) binding of the key. -/
def alDel {β : Type} : List (String × β) → String → List (String × β)
  | [], _ => []
  | (k, v) :: rest, key => if k = key then rest else (k, v) :: alDel rest key

/-! ## Directory listings -/

/-- A directory entry as far as the cache layer inspects it: its `name`
and whether `item.type === 'folder'`. -/
structure DirItem where
  name : String
  isFolder : Bool
deriving DecidableEq, Repr

/-- The listing stored for a folder path. -/
abbrev Listing := List DirItem

/-! ## FolderCache (entry store) -/

/-- `CacheEntry` of the FolderCache source.  `data` is `Option Listing`
because placeholder entries created elsewhere carry `data: null`. -/
structure CacheEntry where
  data : Option Listing
  etag : String
  timestamp : Nat
  path : String
deriving DecidableEq, Repr

/-- The in-memory state of the `FolderCache` class: the entry map, the
LRU `accessOrder` list, and the configuration. -/
structure FolderCache where
  cache : List (String × CacheEntry)
  accessOrder : List String
  maxEntries : Nat
  maxAgeMs : Nat
deriving Repr

/-- Remove the first occurrence of `key` (the `indexOf`/`splice` idiom). -/
def removeFirst : List String → String → List String
  | [], _ => []
  | x :: rest, key => if x = key then rest else x :: removeFirst rest key

/-- Whether the second character list leads the first. -/
def charsLeadWith : List Char → List Char → Bool
  | [], _ => true
  | _ :: _, [] => false
  | p :: ps, c :: cs => p = c && charsLeadWith ps cs

/-- JavaScript `key.startsWith(pre)`, computed on the character
sequences (identical to the code-unit comparison for these paths). -/
def strStartsWith (s pre : String) : Bool := charsLeadWith pre.data s.data

/-- Insert `x` into a sorted list directly before the first element `y`
that is not strictly below it (`lt y x = false`), so `x` lands after
every earlier element tied with it. -/
def stableInsert {α : Type} (lt : α → α → Bool) (x : α) :
    List α → List α
  | [] => [x]
  | y :: ys => if lt y x then y :: stableInsert lt x ys else x :: y :: ys

/-- `Array.prototype.sort(cmp)` with `cmp a b = a-b`-style comparators:
a stable ascending sort.  A stable sort's output is determined by the
comparator and stability alone, so this insertion sort computes exactly
what the JavaScript engine's stable sort computes. -/
def stableSort {α : Type} (lt : α → α → Bool) : List α → List α
  | [] => []
  | x :: xs => stableInsert lt x (stableSort lt xs)

namespace FolderCache

/-- `evictOldest(count)`: repeatedly shift the head of `accessOrder` and
delete it from the map. -/
def evictOldest (fc : FolderCache) : Nat → FolderCache
  | 0 => fc
  | Nat.succ n =>
      match fc.accessOrder with
      | [] => fc
      | oldest :: rest =>
          evictOldest
            { fc with accessOrder := rest, cache := alDel fc.cache oldest } n

/-- `updateAccessOrder(key)`: move `key` to the most-recent end. -/
def updateAccessOrder (fc : FolderCache) (key : String) : FolderCache :=
  { fc with accessOrder := removeFirst fc.accessOrder key ++ [key] }

/-- `get(path)`: `null` when absent; delete and report `null` when the
entry is older than `maxAgeMs`; otherwise touch the access order and
return the entry.  Returns the possibly mutated cache as well. -/
def get (fc : FolderCache) (now : Nat) (path : String) :
    Option CacheEntry × FolderCache :=
  match alGet fc.cache path with
  | none => (none, fc)
  | some entry =>
      if now - entry.timestamp > fc.maxAgeMs then
        (none, { fc with cache := alDel fc.cache path,
                         accessOrder := removeFirst fc.accessOrder path })
      else
        (some entry, fc.updateAccessOrder path)

/-- `getData(path)`: `entry ? entry.data : null`.  A placeholder entry
(`data: null`) also yields `none`. -/
def getData (fc : FolderCache) (now : Nat) (path : String) :
    Option Listing × FolderCache :=
  match fc.get now path with
  | (some entry, fc1) => (entry.data, fc1)
  | (none, fc1) => (none, fc1)

/-- `has(path)`: whether `get` hits. -/
def has (fc : FolderCache) (now : Nat) (path : String) : Bool × FolderCache :=
  match fc.get now path with
  | (some _, fc1) => (true, fc1)
  | (none, fc1) => (false, fc1)

/-- `getEtag(path)`: the stored validator, without touching the access
order and without deleting an expired entry. -/
def getEtag (fc : FolderCache) (now : Nat) (path : String) : Option String :=
  match alGet fc.cache path with
  | none => none
  | some entry =>
      if now - entry.timestamp > fc.maxAgeMs then none else some entry.etag

/-- `set(path, data, etag)`: evict the least-recently-touched entry when
inserting a new key at capacity, then store the entry stamped `now`. -/
def set (fc : FolderCache) (now : Nat) (path : String) (data : Option Listing)
    (etag : String) : FolderCache :=
  let fc1 :=
    if fc.cache.length ≥ fc.maxEntries ∧ (alGet fc.cache path).isNone then
      fc.evictOldest 1
    else fc
  let entry : CacheEntry :=
    { data := data, etag := etag, timestamp := now, path := path }
  ({ fc1 with cache := alSet fc1.cache path entry }).updateAccessOrder path

/-- `invalidate(path)`: drop the entry and its access-order slot. -/
def invalidate (fc : FolderCache) (path : String) : FolderCache :=
  { fc with cache := alDel fc.cache path,
            accessOrder := removeFirst fc.accessOrder path }

/-- `invalidatePrefix(pre)` of the source: collect every key that starts
with `pre`, then `invalidate` each collected key. -/
def invalidateTree (fc : FolderCache) (pre : String) : FolderCache :=
  let keysToDelete := (fc.cache.map Prod.fst).filter (fun k => strStartsWith k pre)
  keysToDelete.foldl (fun acc k => acc.invalidate k) fc

end FolderCache

/-! ## Conditional transport: `requestWithCache` -/

/-- A transport response: 304 Not Modified, or a JSON body
`{success, data, error}` together with the `ETag` and `X-Folder-Hash`
response headers (header absent = `none`). -/
inductive HttpResponse where
  | notModified
  | ok (success : Bool) (body : Option Listing)
      (etagHeader : Option String) (xFolderHash : Option String)
      (errMsg : String)
deriving DecidableEq, Repr

/-- JavaScript `a || b` on a nullable header string: `null` and `""` are
falsy. -/
def jsOrS (a : Option String) (b : String) : String :=
  match a with
  | some s => if s = "" then b else s
  | none => b

/-- The value of `requestWithCache`: `{ data, fromCache }`. -/
structure ReadResult where
  data : Option Listing
  fromCache : Bool
deriving DecidableEq, Repr

/-- The `If-None-Match` header `requestWithCache` sends: the stored
validator unless `skipCache` is set, the entry is expired, or the
validator is the empty (falsy) string. -/
def condHeaderOf (fc : FolderCache) (now : Nat) (url : String)
    (skipCache : Bool) : Option String :=
  let cachedEtag : Option String :=
    if skipCache then none else fc.getEtag now url
  match cachedEtag with
  | some e => if e = "" then none else some e
  | none => none

/-- The fetcher body of `requestWithCache(url, options)` of
`hooks/request.ts`, embedded with the server as a function of the sent
`If-None-Match` header.  On 304 with a cached non-null listing the
cached data is returned `fromCache`; on 304 against a missing or
placeholder entry the source executes
`return requestWithCache(url, {skipCache: true})`, modelled here as the
fetcher body re-executing with `skipCache: true`; on a successful body
the cache is filled when the response carries a non-empty validator.
`fuel` bounds the recursion; `none` means out of fuel.  The deployed
function wraps this body in `deduplicatedRequest`, which changes the
fallback's behaviour: see `requestWithCacheJs` below for the
promise-level embedding of the wrapped call. -/
def requestWithCache (server : Option String → HttpResponse) (now : Nat)
    (url : String) (skipCache : Bool) (fc : FolderCache) :
    Nat → Option (Except String ReadResult × FolderCache)
  | 0 => none
  | Nat.succ fuel =>
      match server (condHeaderOf fc now url skipCache) with
      | HttpResponse.notModified =>
          match fc.get now url with
          | (some cached, fc1) =>
              match cached.data with
              | some l =>
                  some (Except.ok { data := some l, fromCache := true }, fc1)
              | none => requestWithCache server now url true fc1 fuel
          | (none, fc1) => requestWithCache server now url true fc1 fuel
      | HttpResponse.ok success body etagHeader xFolderHash errMsg =>
          if success then
            let etag := jsOrS etagHeader (jsOrS xFolderHash "")
            let fc1 := if etag ≠ "" then fc.set now url body etag else fc
            some (Except.ok { data := body, fromCache := false }, fc1)
          else
            some (Except.error errMsg, fc)

/-- `fetchAndCache(path)` of `hooks/requestManager.ts`: an unconditional
prefetch read; on `success` it stores the listing only when the `ETag`
header (alone — `X-Folder-Hash` is not consulted here) is non-empty. -/
def fetchAndCache (resp : HttpResponse) (now : Nat) (path : String)
    (fc : FolderCache) : FolderCache :=
  match resp with
  | HttpResponse.notModified => fc
  | HttpResponse.ok success body etagHeader _ _ =>
      if success then
        let etag := jsOrS etagHeader ""
        if etag ≠ "" then fc.set now path body etag else fc
      else fc

/-- The promise-level outcome of a call into the deduplication layer:
the operation's promise either settles with a value (or error), or the
call returned another registered promise — an async function that
returns a promise resolves with it, so the caller then waits on that
promise's settlement. -/
inductive JsOutcome where
  | value (v : Except String ReadResult)
  | awaits (p : Nat)
deriving Repr

/-- `requestWithCache` as deployed: `deduplicatedRequest(url, fetcher)`
around the fetcher body, at the promise level.  Promises are numbered;
`inFlight` is the `inFlightRequests` map; `nextId` numbers the next
promise `deduplicatedRequest` would create.  Returns the outcome, the
folder cache, and the `If-None-Match` values of the network reads
actually issued (`none` = unconditional), or `none` when out of fuel.

When `inFlight` already binds `url`, `deduplicatedRequest` returns that
promise and no fetcher runs and no network read is issued.  Otherwise
the fetcher runs registered under a fresh promise id: the registration
`inFlightRequests.set(url, promise)` executes during the fetcher's
first `await`, so it is in place by the time the fetcher resumes — in
particular the 304-placeholder fallback of request.ts line 71, which
re-enters `requestWithCache` for the same url, observes it and is
handed the operation's own still-pending promise.  The registration is
deleted only in the promise's `.finally`, i.e. only after the fetcher's
returned value settles; an `awaits p` outcome where `p` is the
operation's own promise id therefore makes the promise resolve with
itself, and it never settles. -/
def requestWithCacheJs (server : Option String → HttpResponse) (now : Nat)
    (url : String) :
    Nat → Bool → FolderCache → List (String × Nat) → Nat →
    Option (JsOutcome × FolderCache × List (Option String))
  | fuel, skipCache, fc, inFlight, nextId =>
    match alGet inFlight url with
    | some p => some (JsOutcome.awaits p, fc, [])
    | none =>
        match fuel with
        | 0 => none
        | Nat.succ fuel =>
            let p := nextId
            let inFlight1 := alSet inFlight url p
            let hdr := condHeaderOf fc now url skipCache
            match server hdr with
            | HttpResponse.notModified =>
                match fc.get now url with
                | (some cached, fc1) =>
                    match cached.data with
                    | some l =>
                        some (JsOutcome.value
                          (Except.ok { data := some l, fromCache := true }),
                          fc1, [hdr])
                    | none =>
                        match requestWithCacheJs server now url fuel true fc1
                            inFlight1 (p + 1) with
                        | none => none
                        | some (out, fc2, calls) =>
                            some (out, fc2, hdr :: calls)
                | (none, fc1) =>
                    match requestWithCacheJs server now url fuel true fc1
                        inFlight1 (p + 1) with
                    | none => none
                    | some (out, fc2, calls) => some (out, fc2, hdr :: calls)
            | HttpResponse.ok success body etagHeader xFolderHash errMsg =>
                if success then
                  let etag := jsOrS etagHeader (jsOrS xFolderHash "")
                  let fc1 := if etag ≠ "" then fc.set now url body etag else fc
                  some (JsOutcome.value
                    (Except.ok { data := body, fromCache := false }),
                    fc1, [hdr])
                else
                  some (JsOutcome.value (Except.error errMsg), fc, [hdr])

/-! ## Optimistic mutations -/

/-- `optimisticRemove(folderPath, itemName)`: read the cached listing
(no-op when absent or placeholder), filter out every entry named
`itemName`, and store the result with an empty validator.  The whole
update is synchronous — no network response is involved. -/
def optimisticRemove (now : Nat) (folderPath itemName : String)
    (fc : FolderCache) : FolderCache :=
  match fc.getData now folderPath with
  | (some cached, fc1) =>
      let updated := cached.filter (fun item => item.name ≠ itemName)
      fc1.set now folderPath (some updated) ""
  | (none, fc1) => fc1

/-! ## Request deduplication (`deduplicatedRequest`) -/

/-- The module state around `deduplicatedRequest`: the `inFlightRequests`
map from url to the in-flight promise (promises are numbered), a counter
producing fresh promise ids, and — for bookkeeping the guarantee — the
list of underlying fetcher invocations, one element (the url) per call. -/
structure DedupState where
  inFlight : List (String × Nat)
  nextPromiseId : Nat
  fetcherCalls : List String
deriving DecidableEq, Repr

/-- `deduplicatedRequest(url, fetcher)`: return the in-flight promise
when one is registered; otherwise invoke the fetcher once, register the
resulting promise, and return it.  The returned `Nat` is the promise the
caller awaits. -/
def deduplicatedRequest (url : String) (s : DedupState) : Nat × DedupState :=
  match alGet s.inFlight url with
  | some p => (p, s)
  | none =>
      let p := s.nextPromiseId
      (p, { inFlight := alSet s.inFlight url p,
            nextPromiseId := p + 1,
            fetcherCalls := s.fetcherCalls ++ [url] })

/-- The `.finally` of the registered promise: when the operation settles
— with either outcome — the in-flight registration for the url is
deleted.  The outcome is passed only to show the cleanup ignores it. -/
def settleRequest (url : String) (_outcome : Except String Listing)
    (s : DedupState) : DedupState :=
  { s with inFlight := alDel s.inFlight url }

/-- `n` concurrent callers of `deduplicatedRequest` for the same url,
issued before the operation settles; returns the promise each caller
awaits. -/
def dedupCallN : Nat → String → DedupState → List Nat × DedupState
  | 0, _, s => ([], s)
  | Nat.succ n, url, s =>
      let (p, s1) := deduplicatedRequest url s
      let (ps, s2) := dedupCallN n url s1
      (p :: ps, s2)

/-! ## Prefetch scheduler -/

/-- `MAX_CONCURRENT_PREFETCH` of `hooks/requestManager.ts`. -/
def MAX_CONCURRENT_PREFETCH : Nat := 6

/-- The module state of the prefetch scheduler: the priority queue of
`{path, priority}` items, the in-flight fetches (task id and path; the
source counts them in `activePrefetches`, here the length of `active`),
a counter for task ids, and the set of paths for which `folderCache.has`
currently answers true. -/
structure PrefetchState where
  queue : List (String × Nat)
  active : List (Nat × String)
  nextTaskId : Nat
  cached : List String
deriving DecidableEq, Repr

/-- The `while` loop of `processPrefetchQueue` (the loop body contains no
`await`, so the whole drain runs synchronously): while the queue is
non-empty and fewer than `MAX_CONCURRENT_PREFETCH` fetches are active,
shift the head, skip it when its path was cached meanwhile, otherwise
start a fetch for it.  Returns the remaining queue, the active fetches
and the next task id. -/
def processGo : List (String × Nat) → List (Nat × String) → Nat →
    List String → List (String × Nat) × List (Nat × String) × Nat
  | [], active, nid, _ => ([], active, nid)
  | item :: rest, active, nid, cached =>
      if active.length ≥ MAX_CONCURRENT_PREFETCH then (item :: rest, active, nid)
      else if cached.contains item.1 then processGo rest active nid cached
      else processGo rest (active ++ [(nid, item.1)]) (nid + 1) cached

/-- `processPrefetchQueue()` on the module state. -/
def processPrefetchQueue (s : PrefetchState) : PrefetchState :=
  let (q, a, nid) := processGo s.queue s.active s.nextTaskId s.cached
  { s with queue := q, active := a, nextTaskId := nid }

/-- The enqueue loop of `queuePrefetch`: skip paths already cached or
already queued, append the rest with the given priority. -/
def enqueueLoop (paths : List String) (priority : Nat)
    (queue : List (String × Nat)) (cached : List String) :
    List (String × Nat) :=
  paths.foldl
    (fun q p =>
      if cached.contains p then q
      else if q.any (fun it => it.1 = p) then q
      else q ++ [(p, priority)])
    queue

/-- `queuePrefetch(paths, priority)`: enqueue with deduplication against
the cache and the queue, stable-sort the queue by ascending priority
(`Array.prototype.sort` is stable), then drain. -/
def queuePrefetch (paths : List String) (priority : Nat)
    (s : PrefetchState) : PrefetchState :=
  let q1 := enqueueLoop paths priority s.queue s.cached
  let q2 := stableSort (fun a b => decide (a.2 < b.2)) q1
  processPrefetchQueue { s with queue := q2 }

/-- The `.finally` of a started prefetch: decrement the active count
(remove the task), record the path in the cache when `fetchAndCache`
stored it (success with a non-empty `ETag`), and drain the queue again
when it is non-empty. -/
def settlePrefetch (tid : Nat) (didCache : Bool) (s : PrefetchState) :
    PrefetchState :=
  match s.active.find? (fun t => t.1 = tid) with
  | none => s
  | some t =>
      let s1 := { s with
        active := s.active.filter (fun u => u.1 ≠ tid),
        cached := if didCache then s.cached ++ [t.2] else s.cached }
      if s1.queue.isEmpty then s1 else processPrefetchQueue s1

/-- The atomic steps the event loop can run against the prefetch
scheduler: a `queuePrefetch` call, or the settling of an in-flight
prefetch read. -/
inductive PrefetchEvent where
  | enqueue (paths : List String) (priority : Nat)
  | settle (tid : Nat) (didCache : Bool)
deriving Repr

def prefetchStep : PrefetchEvent → PrefetchState → PrefetchState
  | PrefetchEvent.enqueue paths priority, s => queuePrefetch paths priority s
  | PrefetchEvent.settle tid didCache, s => settlePrefetch tid didCache s

def prefetchRun (evs : List PrefetchEvent) (s : PrefetchState) :
    PrefetchState :=
  evs.foldl (fun acc e => prefetchStep e acc) s

/-- The module's initial state: empty queue, no active fetch, nothing
cached. -/
def initPrefetchState : PrefetchState :=
  { queue := [], active := [], nextTaskId := 0, cached := [] }

/-- The spec's invariant for claim C8: no path duplicated among the
concurrently queued and in-flight prefetch tasks. -/
def NoDupQueuedOrInFlight (s : PrefetchState) : Prop :=
  (s.queue.map Prod.fst ++ s.active.map Prod.snd).Nodup

instance (s : PrefetchState) : Decidable (NoDupQueuedOrInFlight s) := by
  unfold NoDupQueuedOrInFlight; infer_instance

/-! ## SmartPrefetcher: access history and frequency ranking -/

/-- `FolderAccessHistory` records of the SmartPrefetcher. -/
structure FolderAccessHistory where
  path : String
  timestamp : Nat
  count : Nat
deriving DecidableEq, Repr

/-- `maxHistorySize` of the SmartPrefetcher. -/
def maxHistorySize : Nat := 100

/-- `history.find(h => h.path === path)` followed by the in-place
mutation: bump the count and refresh the timestamp of the first record
for `path`. -/
def updateFirstAccess (path : String) (now : Nat) :
    List FolderAccessHistory → List FolderAccessHistory
  | [] => []
  | h :: rest =>
      if h.path = path then
        { h with timestamp := now, count := h.count + 1 } :: rest
      else h :: updateFirstAccess path now rest

/-- `recordAccess(path)`: bump the existing record or append a fresh one
with count 1; then, when the history exceeds `maxHistorySize`, keep the
`maxHistorySize` most recent records (stable sort by timestamp
descending). -/
def recordAccess (now : Nat) (path : String)
    (history : List FolderAccessHistory) : List FolderAccessHistory :=
  let h1 :=
    if history.any (fun h => h.path = path) then
      updateFirstAccess path now history
    else
      history ++ [{ path := path, timestamp := now, count := 1 }]
  if h1.length > maxHistorySize then
    (stableSort (fun a b => decide (b.timestamp < a.timestamp)) h1).take
      maxHistorySize
  else h1

/-- The stable descending-by-count sort inside `getFrequentPaths`. -/
def sortByCountDesc (history : List FolderAccessHistory) :
    List FolderAccessHistory :=
  stableSort (fun a b => decide (b.count < a.count)) history

/-- `getFrequentPaths(limit)`: sort a copy by visit count descending,
take the first `limit` records, return their paths. -/
def getFrequentPaths (history : List FolderAccessHistory) (limit : Nat) :
    List String :=
  ((sortByCountDesc history).take limit).map (fun h => h.path)

/-! ## Navigation orchestration (`explorer.ts`) -/

/-- An error toast raised by a failed navigation. -/
structure Toast where
  severity : String
  detail : String
deriving DecidableEq, Repr

/-- The UI-visible state the `refresh` / `forceRefresh` logic of
`hooks/explorer.ts` mutates, plus the navigation-id counter.  (The
breadcrumb children and the prefetch nominations issued by `processData`
live outside this record; the claims under proof concern `items`,
`loading` and the error toasts.) -/
structure ExplorerState where
  currentNavigationId : Nat
  currentPath : String
  items : Listing
  loading : Bool
  selectedItems : Listing
  toasts : List Toast
deriving DecidableEq, Repr

/-- `processData(resData)`: split into folders and files, sort each by
name (`localeCompare` embedded as the string order), folders first. -/
def processData (resData : Listing) (s : ExplorerState) : ExplorerState :=
  let folders := resData.filter (fun i => i.isFolder)
  let files := resData.filter (fun i => !i.isFolder)
  let folders := stableSort (fun a b => decide (a.name < b.name)) folders
  let files := stableSort (fun a b => decide (a.name < b.name)) files
  { s with items := folders ++ files }

/-- A navigation read in flight: the navigation id captured at `await`
time and the path requested. -/
structure PendingNav where
  navigationId : Nat
  path : String
deriving DecidableEq, Repr

/-- How `await request(currentPath)` can settle: a listing, an
`AbortError` from a cancelled transport call, or another failure. -/
inductive NavOutcome where
  | success (resData : Listing)
  | abortError
  | failure (msg : String)
deriving DecidableEq, Repr

/-- The synchronous part of `refresh()`: capture a fresh navigation id,
clear the selection, and either (cache hit, `cachedData` standing for
`getCachedData(currentPath)`) render the cached listing at once with no
pending read — the background revalidation touches only the folder cache
— or (miss) enter the loading state and leave a pending read carrying
the captured id. -/
def startRefresh (cachedData : Option Listing) (s : ExplorerState) :
    ExplorerState × Option PendingNav :=
  let navigationId := s.currentNavigationId + 1
  let s1 := { s with currentNavigationId := navigationId,
                     selectedItems := [] }
  match cachedData with
  | some cached => ({ processData cached s1 with loading := false }, none)
  | none =>
      ({ s1 with loading := true, items := [] },
       some { navigationId := navigationId, path := s1.currentPath })

/-- The synchronous part of `forceRefresh()`: capture a fresh navigation
id, enter the loading state, clear items and selection (the
`invalidateCache` call touches only the folder cache), and leave a
pending read carrying the captured id. -/
def startForceRefresh (s : ExplorerState) : ExplorerState × PendingNav :=
  let navigationId := s.currentNavigationId + 1
  ({ s with currentNavigationId := navigationId, loading := true,
            items := [], selectedItems := [] },
   { navigationId := navigationId, path := s.currentPath })

/-- The completion of a pending navigation read — the code after the
`await` in `refresh` / `forceRefresh` (both bodies are identical): a
result or error whose captured id no longer matches the current id is
dropped (the `finally` also skips `loading = false` then); an
`AbortError` is dropped silently but still runs the `finally`; a current
failure raises one error toast. -/
def completeRefresh (p : PendingNav) (o : NavOutcome) (s : ExplorerState) :
    ExplorerState :=
  match o with
  | NavOutcome.success resData =>
      if p.navigationId = s.currentNavigationId then
        { processData resData s with loading := false }
      else s
  | NavOutcome.abortError =>
      if p.navigationId = s.currentNavigationId then
        { s with loading := false }
      else s
  | NavOutcome.failure msg =>
      if p.navigationId = s.currentNavigationId then
        { s with
          toasts := s.toasts ++ [{ severity := "error", detail := msg }]
          loading := false }
      else s

/-- The atomic steps the event loop can run against the orchestrator:
navigating to a path (which runs the synchronous part of `refresh`, with
the cache-lookup answer as oracle input), a `forceRefresh`, or the
settling of some pending read. -/
inductive NavEvent where
  | navigate (path : String) (cachedData : Option Listing)
  | force
  | complete (p : PendingNav) (o : NavOutcome)

def navStep : NavEvent → ExplorerState → ExplorerState
  | NavEvent.navigate path cachedData, s =>
      (startRefresh cachedData { s with currentPath := path }).1
  | NavEvent.force, s => (startForceRefresh s).1
  | NavEvent.complete p o, s => completeRefresh p o s

def navRun (evs : List NavEvent) (s : ExplorerState) : ExplorerState :=
  evs.foldl (fun acc e => navStep e acc) s

/-! ## Helper lemmas on association lists -/

theorem alGet_alSet_self {β : Type} (m : List (String × β)) (k : String)
    (v : β) : alGet (alSet m k v) k = some v := by
  induction m with
  | nil => simp [alSet, alGet]
  | cons hd tl ih =>
      obtain ⟨k', v'⟩ := hd
      by_cases h : k' = k
      · simp [alSet, alGet, h]
      · simp [alSet, alGet, h, ih]

theorem alDel_alSet_of_none {β : Type} (m : List (String × β)) (k : String)
    (v : β) (hmiss : alGet m k = none) : alDel (alSet m k v) k = m := by
  induction m with
  | nil => simp [alSet, alDel]
  | cons hd tl ih =>
      obtain ⟨k', v'⟩ := hd
      by_cases h : k' = k
      · simp [alGet, h] at hmiss
      · simp [alGet, h] at hmiss
        simp [alSet, alDel, h, ih hmiss]

theorem alGet_eq_none_iff {β : Type} (m : List (String × β)) (k : String) :
    alGet m k = none ↔ k ∉ m.map Prod.fst := by
  induction m with
  | nil => simp [alGet]
  | cons hd tl ih =>
      obtain ⟨k', v'⟩ := hd
      by_cases h : k' = k
      · simp [alGet, h]
      · simp [alGet, h, ih, Ne.symm h]

theorem alDel_sublist {β : Type} (m : List (String × β)) (k : String) :
    (alDel m k).Sublist m := by
  induction m with
  | nil => simp [alDel]
  | cons hd tl ih =>
      obtain ⟨k', v'⟩ := hd
      by_cases h : k' = k
      · simp [alDel, h]
      · simpa [alDel, h] using ih.cons₂ (k', v')

theorem alGet_alDel {β : Type} (m : List (String × β))
    (hnd : (m.map Prod.fst).Nodup) (k k' : String) :
    alGet (alDel m k) k' = if k' = k then none else alGet m k' := by
  induction m with
  | nil => simp [alDel, alGet]
  | cons hd tl ih =>
      obtain ⟨a, b⟩ := hd
      simp only [List.map_cons, List.nodup_cons] at hnd
      obtain ⟨hnotin, hndtl⟩ := hnd
      by_cases hak : a = k
      · subst hak
        simp only [alDel, if_pos rfl]
        by_cases hk' : k' = a
        · subst hk'
          simp [if_pos rfl, (alGet_eq_none_iff tl k').mpr hnotin]
        · simp [alGet, hk', Ne.symm hk', if_neg hk']
      · simp only [alDel, if_neg hak]
        by_cases hak' : a = k'
        · subst hak'
          simp [alGet, if_neg (Ne.symm hak)]
          intro hcon
          exact absurd hcon hak
        · simp [alGet, hak', ih hndtl]

/-! ## C2: request deduplication -/

theorem deduplicatedRequest_hit (url : String) (s : DedupState) (p : Nat)
    (h : alGet s.inFlight url = some p) :
    deduplicatedRequest url s = (p, s) := by
  simp [deduplicatedRequest, h]

theorem dedupCallN_hit (n : Nat) (url : String) (s : DedupState) (p : Nat)
    (h : alGet s.inFlight url = some p) :
    dedupCallN n url s = (List.replicate n p, s) := by
  induction n with
  | zero => simp [dedupCallN]
  | succ n ih =>
      simp [dedupCallN, deduplicatedRequest_hit url s p h, ih,
        List.replicate_succ]

/-- C2: for every key and every `n ≥ 1` concurrent calls to the
deduplicated read issued before the operation settles, exactly one
underlying fetcher call executes; every caller awaits the same promise
(hence observes the same outcome); and the in-flight registration is
removed as soon as the operation settles, whatever the outcome. -/
theorem dedup_single_flight (s : DedupState) (url : String) (n : Nat)
    (hmiss : alGet s.inFlight url = none) (hn : 1 ≤ n) :
    (dedupCallN n url s).2.fetcherCalls = s.fetcherCalls ++ [url] ∧
    (dedupCallN n url s).1 = List.replicate n s.nextPromiseId ∧
    alGet (dedupCallN n url s).2.inFlight url = some s.nextPromiseId ∧
    ∀ outcome,
      alGet (settleRequest url outcome (dedupCallN n url s).2).inFlight url
        = none := by
  obtain ⟨m, rfl⟩ : ∃ m, n = m + 1 := ⟨n - 1, (Nat.succ_pred_eq_of_pos hn).symm⟩
  have hfirst : deduplicatedRequest url s =
      (s.nextPromiseId,
       { inFlight := alSet s.inFlight url s.nextPromiseId,
         nextPromiseId := s.nextPromiseId + 1,
         fetcherCalls := s.fetcherCalls ++ [url] }) := by
    simp [deduplicatedRequest, hmiss]
  have hrest := dedupCallN_hit m url
      { inFlight := alSet s.inFlight url s.nextPromiseId,
        nextPromiseId := s.nextPromiseId + 1,
        fetcherCalls := s.fetcherCalls ++ [url] }
      s.nextPromiseId (by simp [alGet_alSet_self])
  have hcall : dedupCallN (m + 1) url s =
      (List.replicate (m + 1) s.nextPromiseId,
       { inFlight := alSet s.inFlight url s.nextPromiseId,
         nextPromiseId := s.nextPromiseId + 1,
         fetcherCalls := s.fetcherCalls ++ [url] }) := by
    simp [dedupCallN, hfirst, hrest, List.replicate_succ]
  refine ⟨by simp [hcall], by simp [hcall], by simp [hcall, alGet_alSet_self],
    fun outcome => ?_⟩
  simp [hcall, settleRequest, alDel_alSet_of_none s.inFlight url _ hmiss,
    hmiss]

/-- Witness for C2 at a concrete state: three concurrent reads of
`"/output"` from an empty in-flight map. -/
theorem dedup_single_flight_witness :
    (dedupCallN 3 "/output"
        { inFlight := [], nextPromiseId := 0, fetcherCalls := [] }
      ).2.fetcherCalls = [] ++ ["/output"] ∧
    (dedupCallN 3 "/output"
        { inFlight := [], nextPromiseId := 0, fetcherCalls := [] }
      ).1 = List.replicate 3 0 := by
  have h := dedup_single_flight
    { inFlight := [], nextPromiseId := 0, fetcherCalls := [] }
    "/output" 3 (by decide) (by decide)
  exact ⟨h.1, h.2.1⟩

/-! ## C6: subtree invalidation -/

theorem alDel_keys_nodup {β : Type} (m : List (String × β)) (k : String)
    (hnd : (m.map Prod.fst).Nodup) : ((alDel m k).map Prod.fst).Nodup :=
  hnd.sublist ((alDel_sublist m k).map Prod.fst)

theorem foldl_invalidate_get (ks : List String) (fc : FolderCache)
    (hnd : (fc.cache.map Prod.fst).Nodup) (k : String) :
    alGet ((ks.foldl (fun acc k => acc.invalidate k) fc).cache) k =
      if k ∈ ks then none else alGet fc.cache k := by
  induction ks generalizing fc with
  | nil => simp
  | cons k0 ks ih =>
      have hnd1 : (((fc.invalidate k0).cache).map Prod.fst).Nodup :=
        alDel_keys_nodup fc.cache k0 hnd
      have hdel : (fc.invalidate k0).cache = alDel fc.cache k0 := rfl
      simp only [List.foldl_cons, ih (fc.invalidate k0) hnd1, hdel,
        alGet_alDel fc.cache hnd, List.mem_cons]
      by_cases h1 : k ∈ ks
      · simp [h1]
      · by_cases h2 : k = k0 <;> simp [h1, h2]

/-- C6: after invalidating a subtree by path prefix, no cache entry
remains whose path starts with the given string, and every entry whose
path does not start with it is untouched — the same entry (listing,
validator and timestamp) is still bound to its path. -/
theorem invalidateTree_spec (fc : FolderCache) (pre : String)
    (hnd : (fc.cache.map Prod.fst).Nodup) :
    (∀ k, strStartsWith k pre = true →
        alGet (fc.invalidateTree pre).cache k = none) ∧
    (∀ k, strStartsWith k pre = false →
        alGet (fc.invalidateTree pre).cache k = alGet fc.cache k) := by
  have hfold := foldl_invalidate_get
    ((fc.cache.map Prod.fst).filter (fun k => strStartsWith k pre)) fc hnd
  constructor
  · intro k hk
    have := hfold k
    rw [FolderCache.invalidateTree, this]
    by_cases hmem : k ∈ (fc.cache.map Prod.fst).filter
        (fun k => strStartsWith k pre)
    · simp [hmem]
    · have hnotkey : k ∉ fc.cache.map Prod.fst := by
        intro hkey
        exact hmem (List.mem_filter.mpr ⟨hkey, hk⟩)
      simp [hmem, (alGet_eq_none_iff fc.cache k).mpr hnotkey]
  · intro k hk
    have hmem : k ∉ (fc.cache.map Prod.fst).filter
        (fun k => strStartsWith k pre) := by
      intro hmem
      have := (List.mem_filter.mp hmem).2
      rw [hk] at this
      exact Bool.false_ne_true this
    rw [FolderCache.invalidateTree, hfold k]
    simp [hmem]

/-- Witness for C6: a two-entry cache; `invalidatePrefix "/a/b"` removes
the entry under `/a/b` and leaves the `/a/c` entry unchanged. -/
theorem invalidateTree_witness :
    alGet ((FolderCache.invalidateTree
        { cache := [("/a/b/x", { data := some [], etag := "e1",
                                 timestamp := 0, path := "/a/b/x" }),
                    ("/a/c", { data := some [], etag := "e2",
                               timestamp := 0, path := "/a/c" })],
          accessOrder := ["/a/b/x", "/a/c"],
          maxEntries := 500, maxAgeMs := 86400000 } "/a/b").cache)
      "/a/b/x" = none ∧
    alGet ((FolderCache.invalidateTree
        { cache := [("/a/b/x", { data := some [], etag := "e1",
                                 timestamp := 0, path := "/a/b/x" }),
                    ("/a/c", { data := some [], etag := "e2",
                               timestamp := 0, path := "/a/c" })],
          accessOrder := ["/a/b/x", "/a/c"],
          maxEntries := 500, maxAgeMs := 86400000 } "/a/b").cache)
      "/a/c" =
      some { data := some [], etag := "e2", timestamp := 0,
             path := "/a/c" } := by
  have h := invalidateTree_spec
    { cache := [("/a/b/x", { data := some [], etag := "e1",
                             timestamp := 0, path := "/a/b/x" }),
                ("/a/c", { data := some [], etag := "e2",
                           timestamp := 0, path := "/a/c" })],
      accessOrder := ["/a/b/x", "/a/c"],
      maxEntries := 500, maxAgeMs := 86400000 } "/a/b" (by decide)
  refine ⟨h.1 "/a/b/x" (by decide), ?_⟩
  rw [h.2 "/a/c" (by decide)]
  decide

/-! ## C5: optimistic removal -/

theorem FolderCache.set_present (fc : FolderCache) (now : Nat)
    (path : String) (data : Option Listing) (etag : String)
    (entry : CacheEntry) (h : alGet fc.cache path = some entry) :
    fc.set now path data etag =
      { cache := alSet fc.cache path
          { data := data, etag := etag, timestamp := now, path := path },
        accessOrder := removeFirst fc.accessOrder path ++ [path],
        maxEntries := fc.maxEntries, maxAgeMs := fc.maxAgeMs } := by
  simp [FolderCache.set, h, FolderCache.updateAccessOrder]

/-- C5: on a folder with a cached listing, `optimisticRemove`
synchronously (no server response is involved) replaces the cached
listing by one excluding every entry with the removed name and stores it
with an empty validator, so that a subsequent `requestWithCache` for
that folder sends no `If-None-Match` header — a conditional
"not modified" match is impossible.  On a folder with no cache entry it
is a no-op. -/
theorem optimisticRemove_spec (fc : FolderCache) (now : Nat)
    (folderPath itemName : String) (entry : CacheEntry) (l : Listing)
    (hget : alGet fc.cache folderPath = some entry)
    (hdata : entry.data = some l)
    (hfresh : now - entry.timestamp ≤ fc.maxAgeMs) :
    alGet (optimisticRemove now folderPath itemName fc).cache folderPath =
      some { data := some (l.filter (fun item => item.name ≠ itemName)),
             etag := "", timestamp := now, path := folderPath } ∧
    (∀ i ∈ l.filter (fun item => item.name ≠ itemName), i.name ≠ itemName) ∧
    (∀ now2,
      condHeaderOf (optimisticRemove now folderPath itemName fc) now2
        folderPath false = none) ∧
    (∀ fc2 : FolderCache, alGet fc2.cache folderPath = none →
      optimisticRemove now folderPath itemName fc2 = fc2) := by
  have hnotexp : ¬ fc.maxAgeMs < now - entry.timestamp := Nat.not_lt.mpr hfresh
  have hred : optimisticRemove now folderPath itemName fc =
      (fc.updateAccessOrder folderPath).set now folderPath
        (some (l.filter (fun item => item.name ≠ itemName))) "" := by
    simp [optimisticRemove, FolderCache.getData, FolderCache.get, hget,
      hnotexp, hdata]
  have hget1 : alGet (fc.updateAccessOrder folderPath).cache folderPath =
      some entry := hget
  have hsetcache := FolderCache.set_present (fc.updateAccessOrder folderPath)
    now folderPath (some (l.filter (fun item => item.name ≠ itemName))) ""
    entry hget1
  have hcacheq : (optimisticRemove now folderPath itemName fc).cache =
      alSet fc.cache folderPath
        { data := some (l.filter (fun item => item.name ≠ itemName)),
          etag := "", timestamp := now, path := folderPath } := by
    rw [hred, hsetcache]
    rfl
  refine ⟨?_, ?_, ?_, ?_⟩
  · rw [hcacheq]; exact alGet_alSet_self _ _ _
  · intro i hi
    exact of_decide_eq_true (List.mem_filter.mp hi).2
  · intro now2
    simp only [condHeaderOf, FolderCache.getEtag, hcacheq, alGet_alSet_self]
    by_cases hexp :
        (optimisticRemove now folderPath itemName fc).maxAgeMs < now2 - now
    · simp [hexp]
    · simp [hexp]
  · intro fc2 h2
    simp [optimisticRemove, FolderCache.getData, FolderCache.get, h2]

/-- Witness for C5: removing `file1` from a cached two-file listing. -/
theorem optimisticRemove_witness :
    alGet (optimisticRemove 10 "/out" "file1"
        { cache := [("/out",
            { data := some [{ name := "file1", isFolder := false },
                            { name := "file2", isFolder := false }],
              etag := "h1", timestamp := 3, path := "/out" })],
          accessOrder := ["/out"], maxEntries := 500,
          maxAgeMs := 86400000 }).cache "/out" =
      some { data := some [{ name := "file2", isFolder := false }],
             etag := "", timestamp := 10, path := "/out" } := by
  have h := optimisticRemove_spec
    { cache := [("/out",
        { data := some [{ name := "file1", isFolder := false },
                        { name := "file2", isFolder := false }],
          etag := "h1", timestamp := 3, path := "/out" })],
      accessOrder := ["/out"], maxEntries := 500, maxAgeMs := 86400000 }
    10 "/out" "file1"
    { data := some [{ name := "file1", isFolder := false },
                    { name := "file2", isFolder := false }],
      etag := "h1", timestamp := 3, path := "/out" }
    [{ name := "file1", isFolder := false },
     { name := "file2", isFolder := false }]
    (by decide) (by decide) (by decide)
  have h1 := h.1
  rw [show ([{ name := "file1", isFolder := false },
             { name := "file2", isFolder := false }] : Listing).filter
        (fun item => item.name ≠ "file1") =
      [{ name := "file2", isFolder := false }] from by decide] at h1
  exact h1

/-! ## C3, C4: 304 handling of `requestWithCache` -/

/-- C3: a conditional read answered 304 against a cache entry whose
listing is present returns exactly the cached listing with
`fromCache = true`, and the only state change is the LRU touch — the
entry map (listing, validator, timestamp of every entry) is exactly the
one before the read; no `set` replaced anything. -/
theorem requestWithCache_304_cached (server : Option String → HttpResponse)
    (now : Nat) (url : String) (fc : FolderCache) (entry : CacheEntry)
    (l : Listing) (fuel : Nat)
    (hget : alGet fc.cache url = some entry)
    (hdata : entry.data = some l)
    (hfresh : now - entry.timestamp ≤ fc.maxAgeMs)
    (hetag : entry.etag ≠ "")
    (hserver : server (some entry.etag) = HttpResponse.notModified) :
    requestWithCache server now url false fc (fuel + 1) =
      some (Except.ok { data := some l, fromCache := true },
            fc.updateAccessOrder url) ∧
    (fc.updateAccessOrder url).cache = fc.cache := by
  have hnotexp : ¬ fc.maxAgeMs < now - entry.timestamp := Nat.not_lt.mpr hfresh
  have hcond : condHeaderOf fc now url false = some entry.etag := by
    simp [condHeaderOf, FolderCache.getEtag, hget, hnotexp, hetag]
  refine ⟨?_, rfl⟩
  simp [requestWithCache, hcond, hserver, FolderCache.get, hget, hnotexp,
    hdata]

/-- Witness for C3: a concrete conditional read served 304. -/
theorem requestWithCache_304_cached_witness :
    requestWithCache (fun _ => HttpResponse.notModified) 20 "/out" false
      { cache := [("/out",
          { data := some [{ name := "a.png", isFolder := false }],
            etag := "h7", timestamp := 12, path := "/out" })],
        accessOrder := ["/out"], maxEntries := 500,
        maxAgeMs := 86400000 } 1 =
      some (Except.ok
        { data := some [{ name := "a.png", isFolder := false }],
          fromCache := true },
        FolderCache.updateAccessOrder
          { cache := [("/out",
              { data := some [{ name := "a.png", isFolder := false }],
                etag := "h7", timestamp := 12, path := "/out" })],
            accessOrder := ["/out"], maxEntries := 500,
            maxAgeMs := 86400000 } "/out") :=
  (requestWithCache_304_cached (fun _ => HttpResponse.notModified) 20 "/out"
    { cache := [("/out",
        { data := some [{ name := "a.png", isFolder := false }],
          etag := "h7", timestamp := 12, path := "/out" })],
      accessOrder := ["/out"], maxEntries := 500, maxAgeMs := 86400000 }
    { data := some [{ name := "a.png", isFolder := false }],
      etag := "h7", timestamp := 12, path := "/out" }
    [{ name := "a.png", isFolder := false }] 0
    (by decide) (by decide) (by decide) (by decide) rfl).1

/-- C4: the code, not the claim, is at fault.  At the failing input —
a placeholder entry (`data: null`, validator `"h7"`) for `/out`, a
server that answers 304 to the conditional read and would serve a fresh
one-file listing to an unconditional one — the deployed, dedup-wrapped
`requestWithCache` reaches the request.ts line 71 fallback; that
fallback re-enters the deduplication layer under the same
still-registered key and is handed the operation's own pending promise
(id 0), so the promise resolves with itself and never settles, and the
only network read ever issued is the conditional one
(`If-None-Match: "h7"`): the unconditional read promised by the
source's own comment "Cache miss or placeholder entry - fetch fresh
data" is never performed and no fresh data is ever returned. -/
theorem requestWithCache_304_placeholder_deadlock :
    requestWithCacheJs
        (fun h => match h with
          | some _ => HttpResponse.notModified
          | none => HttpResponse.ok true
              (some [{ name := "b.png", isFolder := false }])
              (some "h9") none "")
        20 "/out" 2 false
        { cache := [("/out",
            { data := none, etag := "h7", timestamp := 12, path := "/out" })],
          accessOrder := ["/out"], maxEntries := 500,
          maxAgeMs := 86400000 } [] 0 =
      some (JsOutcome.awaits 0,
        FolderCache.updateAccessOrder
          { cache := [("/out",
              { data := none, etag := "h7", timestamp := 12,
                path := "/out" })],
            accessOrder := ["/out"], maxEntries := 500,
            maxAgeMs := 86400000 } "/out",
        [some "h7"]) := by
  rfl

/-! ## C10: reads without a validator never touch the cache -/

/-- C10: a successful full (non-304) read whose response carries no
validator (`ETag` and `X-Folder-Hash` both absent or empty) returns the
listing but leaves the folder cache completely unchanged — no entry is
created or updated, so the path stays uncached; likewise a successful
prefetch fetch without an `ETag` header stores nothing. -/
theorem no_validator_no_cache :
    (∀ (server : Option String → HttpResponse) (now : Nat) (url : String)
        (skipCache : Bool) (fc : FolderCache) (fuel : Nat)
        (body : Option Listing) (etagHeader xfh : Option String)
        (msg : String),
      server (condHeaderOf fc now url skipCache) =
        HttpResponse.ok true body etagHeader xfh msg →
      jsOrS etagHeader (jsOrS xfh "") = "" →
      requestWithCache server now url skipCache fc (fuel + 1) =
        some (Except.ok { data := body, fromCache := false }, fc)) ∧
    (∀ (now : Nat) (path : String) (fc : FolderCache) (body : Option Listing)
        (etagHeader xfh : Option String) (msg : String),
      jsOrS etagHeader "" = "" →
      fetchAndCache (HttpResponse.ok true body etagHeader xfh msg) now path fc
        = fc) := by
  constructor
  · intro server now url skipCache fc fuel body etagHeader xfh msg hserver
      hnoet
    simp [requestWithCache, hserver, hnoet]
  · intro now path fc body etagHeader xfh msg hnoet
    simp [fetchAndCache, hnoet]

/-- Witness for C10: a success response with both validator headers
absent leaves a concrete empty cache empty, and a prefetch success
response without `ETag` is not stored. -/
theorem no_validator_no_cache_witness :
    requestWithCache
        (fun _ => HttpResponse.ok true
          (some [{ name := "c.png", isFolder := false }]) none none "")
        5 "/out" false
        { cache := [], accessOrder := [], maxEntries := 500,
          maxAgeMs := 86400000 } 1 =
      some (Except.ok
        { data := some [{ name := "c.png", isFolder := false }],
          fromCache := false },
        { cache := [], accessOrder := [], maxEntries := 500,
          maxAgeMs := 86400000 }) ∧
    fetchAndCache
        (HttpResponse.ok true (some [{ name := "c.png", isFolder := false }])
          none (some "x1") "")
        5 "/out"
        { cache := [], accessOrder := [], maxEntries := 500,
          maxAgeMs := 86400000 } =
      { cache := [], accessOrder := [], maxEntries := 500,
        maxAgeMs := 86400000 } :=
  ⟨no_validator_no_cache.1
      (fun _ => HttpResponse.ok true
        (some [{ name := "c.png", isFolder := false }]) none none "")
      5 "/out" false
      { cache := [], accessOrder := [], maxEntries := 500,
        maxAgeMs := 86400000 } 0
      (some [{ name := "c.png", isFolder := false }]) none none ""
      rfl (by decide),
   no_validator_no_cache.2 5 "/out"
      { cache := [], accessOrder := [], maxEntries := 500,
        maxAgeMs := 86400000 }
      (some [{ name := "c.png", isFolder := false }]) none (some "x1") ""
      (by decide)⟩

/-! ## C7: prefetch concurrency cap -/

theorem processGo_active_le (q : List (String × Nat))
    (active : List (Nat × String)) (nid : Nat) (cached : List String)
    (h : active.length ≤ MAX_CONCURRENT_PREFETCH) :
    (processGo q active nid cached).2.1.length ≤ MAX_CONCURRENT_PREFETCH := by
  induction q generalizing active nid with
  | nil => simpa [processGo] using h
  | cons item rest ih =>
      by_cases hcap : active.length ≥ MAX_CONCURRENT_PREFETCH
      · simpa [processGo, if_pos hcap] using h
      · have hlt : active.length < MAX_CONCURRENT_PREFETCH :=
          Nat.lt_of_not_le hcap
        simp only [processGo, if_neg hcap]
        by_cases hc : cached.contains item.1 = true
        · rw [if_pos hc]
          exact ih active nid h
        · rw [if_neg hc]
          refine ih (active ++ [(nid, item.1)]) (nid + 1) ?_
          simpa using hlt

theorem prefetchStep_active_le (e : PrefetchEvent) (s : PrefetchState)
    (h : s.active.length ≤ MAX_CONCURRENT_PREFETCH) :
    (prefetchStep e s).active.length ≤ MAX_CONCURRENT_PREFETCH := by
  cases e with
  | enqueue paths priority =>
      simpa [prefetchStep, queuePrefetch, processPrefetchQueue] using
        processGo_active_le _ s.active s.nextTaskId s.cached h
  | settle tid didCache =>
      simp only [prefetchStep, settlePrefetch]
      cases hf : s.active.find? (fun t => t.1 = tid) with
      | none => simpa using h
      | some t =>
          have hfil : (s.active.filter (fun u => u.1 ≠ tid)).length ≤
              MAX_CONCURRENT_PREFETCH :=
            Nat.le_trans (List.length_filter_le _ _) h
          by_cases hq : s.queue.isEmpty
          · simpa [hq] using hfil
          · simpa [hq, processPrefetchQueue] using
              processGo_active_le s.queue _ s.nextTaskId _ hfil

/-- C7: along every interleaving of `queuePrefetch` calls and prefetch
completions starting from the module's initial state, the number of
in-flight prefetch reads never exceeds `MAX_CONCURRENT_PREFETCH = 6`;
in particular, enqueuing 20 distinct uncached paths starts exactly 6
reads and leaves the other 14 queued. -/
theorem prefetch_concurrency_cap :
    (∀ evs : List PrefetchEvent,
      (prefetchRun evs initPrefetchState).active.length ≤
        MAX_CONCURRENT_PREFETCH) ∧
    ((prefetchRun [PrefetchEvent.enqueue
        ["/p01", "/p02", "/p03", "/p04", "/p05", "/p06", "/p07", "/p08",
         "/p09", "/p10", "/p11", "/p12", "/p13", "/p14", "/p15", "/p16",
         "/p17", "/p18", "/p19", "/p20"] 1] initPrefetchState).active.length
        = 6 ∧
     (prefetchRun [PrefetchEvent.enqueue
        ["/p01", "/p02", "/p03", "/p04", "/p05", "/p06", "/p07", "/p08",
         "/p09", "/p10", "/p11", "/p12", "/p13", "/p14", "/p15", "/p16",
         "/p17", "/p18", "/p19", "/p20"] 1] initPrefetchState).queue.length
        = 14) := by
  constructor
  · intro evs
    have : ∀ (l : List PrefetchEvent) (s : PrefetchState),
        s.active.length ≤ MAX_CONCURRENT_PREFETCH →
        (prefetchRun l s).active.length ≤ MAX_CONCURRENT_PREFETCH := by
      intro l
      induction l with
      | nil => intro s hs; simpa [prefetchRun] using hs
      | cons e rest ih =>
          intro s hs
          have h1 := prefetchStep_active_le e s hs
          simpa [prefetchRun] using ih (prefetchStep e s) h1
    exact this evs initPrefetchState (by simp [initPrefetchState])
  · constructor <;> decide

/-! ## C8: prefetch deduplication -/

/-- Counterexample to C8 as stated: `queuePrefetch` deduplicates only
against the cache and the queue, not against in-flight fetches.
Enqueuing `"/out/a"`, letting its fetch start, and enqueuing `"/out/a"`
again before that fetch settles starts a second concurrent fetch of the
same path: two in-flight tasks carry `"/out/a"`. -/
theorem prefetch_dup_in_flight_cex :
    ¬ NoDupQueuedOrInFlight (prefetchRun
        [PrefetchEvent.enqueue ["/out/a"] 1,
         PrefetchEvent.enqueue ["/out/a"] 1] initPrefetchState) ∧
    (prefetchRun
        [PrefetchEvent.enqueue ["/out/a"] 1,
         PrefetchEvent.enqueue ["/out/a"] 1]
        initPrefetchState).active.map Prod.snd = ["/out/a", "/out/a"] := by
  constructor <;> decide

theorem stableInsert_perm {α : Type} (lt : α → α → Bool) (x : α)
    (l : List α) : (stableInsert lt x l).Perm (x :: l) := by
  induction l with
  | nil => simp [stableInsert]
  | cons y ys ih =>
      by_cases h : lt y x = true
      · simp only [stableInsert, if_pos h]
        exact (ih.cons y).trans (List.Perm.swap x y ys)
      · simp [stableInsert, if_neg h]

theorem stableSort_perm {α : Type} (lt : α → α → Bool) (l : List α) :
    (stableSort lt l).Perm l := by
  induction l with
  | nil => simp [stableSort]
  | cons x xs ih =>
      exact (stableInsert_perm lt x (stableSort lt xs)).trans (ih.cons x)

theorem enqueueLoop_nodup (ps : List String) (pri : Nat)
    (q : List (String × Nat)) (c : List String)
    (h : (q.map Prod.fst).Nodup) :
    ((enqueueLoop ps pri q c).map Prod.fst).Nodup := by
  induction ps generalizing q with
  | nil => simpa [enqueueLoop] using h
  | cons p ps ih =>
      have hstep : ∀ q' : List (String × Nat), (q'.map Prod.fst).Nodup →
          (((if c.contains p then q'
             else if q'.any (fun it => it.1 = p) then q'
             else q' ++ [(p, pri)]).map Prod.fst)).Nodup := by
        intro q' hq'
        by_cases h1 : c.contains p = true
        · rw [if_pos h1]; exact hq'
        · rw [if_neg h1]
          by_cases h2 : q'.any (fun it => it.1 = p) = true
          · rw [if_pos h2]; exact hq'
          · rw [if_neg h2]
            have hnot : p ∉ q'.map Prod.fst := by
              intro hmem
              obtain ⟨it, hit, hfst⟩ := List.mem_map.mp hmem
              have := (List.any_eq_false.mp (Bool.eq_false_iff.mpr h2)) it hit
              simp [hfst] at this
            rw [List.map_append]
            simp [List.nodup_append, hq', hnot]
      have : enqueueLoop (p :: ps) pri q c =
          enqueueLoop ps pri
            (if c.contains p then q
             else if q.any (fun it => it.1 = p) then q
             else q ++ [(p, pri)]) c := by
        simp [enqueueLoop]
      rw [this]
      exact ih _ (hstep q h)

theorem processGo_queue_nodup (q : List (String × Nat))
    (a : List (Nat × String)) (nid : Nat) (c : List String)
    (h : (q.map Prod.fst).Nodup) :
    (((processGo q a nid c).1).map Prod.fst).Nodup := by
  induction q generalizing a nid with
  | nil => simp [processGo]
  | cons item rest ih =>
      have hrest : (rest.map Prod.fst).Nodup := by
        simp only [List.map_cons, List.nodup_cons] at h
        exact h.2
      by_cases hcap : a.length ≥ MAX_CONCURRENT_PREFETCH
      · simpa [processGo, if_pos hcap] using h
      · simp only [processGo, if_neg hcap]
        by_cases hc : c.contains item.1 = true
        · rw [if_pos hc]; exact ih a nid hrest
        · rw [if_neg hc]; exact ih (a ++ [(nid, item.1)]) (nid + 1) hrest

theorem prefetchStep_queue_nodup (e : PrefetchEvent) (s : PrefetchState)
    (h : (s.queue.map Prod.fst).Nodup) :
    (((prefetchStep e s).queue).map Prod.fst).Nodup := by
  cases e with
  | enqueue paths priority =>
      have h1 := enqueueLoop_nodup paths priority s.queue s.cached h
      have h2 : (((stableSort (fun a b => decide (a.2 < b.2))
          (enqueueLoop paths priority s.queue s.cached)).map Prod.fst)).Nodup :=
        List.Perm.nodup ((stableSort_perm _ _).map Prod.fst).symm h1
      simpa [prefetchStep, queuePrefetch, processPrefetchQueue] using
        processGo_queue_nodup _ s.active s.nextTaskId s.cached h2
  | settle tid didCache =>
      simp only [prefetchStep, settlePrefetch]
      cases hf : s.active.find? (fun t => t.1 = tid) with
      | none => simpa using h
      | some t =>
          by_cases hq : s.queue.isEmpty
          · simpa [hq] using h
          · simpa [hq, processPrefetchQueue] using
              processGo_queue_nodup s.queue _ s.nextTaskId _ h

/-- C8 amended: the queue itself never holds a duplicated path — a path
already queued is not enqueued again — and a path already cached is
skipped both at enqueue time and again when it reaches the head of the
queue.  (A path whose prefetch read is in flight but not yet cached is
not protected: the stated claim fails there, see the counterexample.) -/
theorem prefetch_queue_dedup :
    (∀ evs : List PrefetchEvent,
      (((prefetchRun evs initPrefetchState).queue).map Prod.fst).Nodup) ∧
    (∀ (s : PrefetchState) (p : String) (pri : Nat),
      s.cached.contains p = true →
      enqueueLoop [p] pri s.queue s.cached = s.queue) ∧
    (∀ (rest : List (String × Nat)) (a : List (Nat × String)) (nid : Nat)
        (c : List String) (p : String) (pri : Nat),
      c.contains p = true → a.length < MAX_CONCURRENT_PREFETCH →
      processGo ((p, pri) :: rest) a nid c = processGo rest a nid c) := by
  refine ⟨?_, ?_, ?_⟩
  · intro evs
    have : ∀ (l : List PrefetchEvent) (s : PrefetchState),
        ((s.queue.map Prod.fst)).Nodup →
        (((prefetchRun l s).queue).map Prod.fst).Nodup := by
      intro l
      induction l with
      | nil => intro s hs; simpa [prefetchRun] using hs
      | cons e rest ih =>
          intro s hs
          simpa [prefetchRun] using
            ih (prefetchStep e s) (prefetchStep_queue_nodup e s hs)
    exact this evs initPrefetchState (by simp [initPrefetchState])
  · intro s p pri hp
    show (if s.cached.contains p then s.queue
          else if s.queue.any (fun it => it.1 = p) then s.queue
          else s.queue ++ [(p, pri)]) = s.queue
    rw [if_pos hp]
  · intro rest a nid c p pri hp hcap
    simp only [processGo, if_neg (Nat.not_le.mpr hcap)]
    rw [if_pos hp]

/-- Witness for C8 (amended): a cached path is skipped at enqueue and at
dequeue in a concrete state. -/
theorem prefetch_queue_dedup_witness :
    enqueueLoop ["/out/a"] 1 [] ["/out/a"] = [] ∧
    processGo [("/out/a", 1)] [] 0 ["/out/a"] = processGo [] [] 0 ["/out/a"] :=
  ⟨prefetch_queue_dedup.2.1
      { queue := [], active := [], nextTaskId := 0, cached := ["/out/a"] }
      "/out/a" 1 (by decide),
   prefetch_queue_dedup.2.2 [] [] 0 ["/out/a"] "/out/a" 1 (by decide)
      (by decide)⟩

/-! ## C9: access-frequency ranking -/

theorem pairwise_stableInsert {α : Type} (lt : α → α → Bool)
    (hasym : ∀ a b, lt a b = true → lt b a = false)
    (htrans : ∀ a b c, lt b a = false → lt c b = false → lt c a = false)
    (x : α) (l : List α) (h : l.Pairwise (fun a b => lt b a = false)) :
    (stableInsert lt x l).Pairwise (fun a b => lt b a = false) := by
  induction l with
  | nil => simp [stableInsert]
  | cons y ys ih =>
      rcases List.pairwise_cons.mp h with ⟨hy, hys⟩
      by_cases hlt : lt y x = true
      · rw [stableInsert, if_pos hlt]
        refine List.pairwise_cons.mpr ⟨?_, ih hys⟩
        intro z hz
        rcases List.mem_cons.mp ((stableInsert_perm lt x ys).mem_iff.mp hz)
          with hzx | hzys
        · exact hzx ▸ hasym y x hlt
        · exact hy z hzys
      · rw [stableInsert, if_neg hlt]
        have hxy : lt y x = false := Bool.eq_false_iff.mpr hlt
        refine List.pairwise_cons.mpr ⟨?_, h⟩
        intro z hz
        rcases List.mem_cons.mp hz with hzy | hzys
        · exact hzy ▸ hxy
        · exact htrans x y z hxy (hy z hzys)

theorem pairwise_stableSort {α : Type} (lt : α → α → Bool)
    (hasym : ∀ a b, lt a b = true → lt b a = false)
    (htrans : ∀ a b c, lt b a = false → lt c b = false → lt c a = false)
    (l : List α) :
    (stableSort lt l).Pairwise (fun a b => lt b a = false) := by
  induction l with
  | nil => simp [stableSort]
  | cons x xs ih =>
      exact pairwise_stableInsert lt hasym htrans x (stableSort lt xs) ih

theorem updateFirstAccess_length (p : String) (now : Nat)
    (h : List FolderAccessHistory) :
    (updateFirstAccess p now h).length = h.length := by
  induction h with
  | nil => simp [updateFirstAccess]
  | cons r rest ih =>
      by_cases hr : r.path = p
      · simp [updateFirstAccess, hr]
      · simp [updateFirstAccess, hr, ih]

/-- C9: the predictor ranks candidates by visit count descending and
returns at most `limit` of them; after five visits to `/output/cats`
and one to `/output/dogs`, the frequency candidates list `/output/cats`
before `/output/dogs`, and the repeated visits bumped a single record's
count (the history holds one record per path) instead of adding
duplicates — in general, recording a visit to a path already in the
history never grows the history. -/
theorem predictor_frequency_ranking :
    (getFrequentPaths
        (recordAccess 6 "/output/dogs" (recordAccess 5 "/output/cats"
          (recordAccess 4 "/output/cats" (recordAccess 3 "/output/cats"
            (recordAccess 2 "/output/cats"
              (recordAccess 1 "/output/cats" [])))))) 5 =
      ["/output/cats", "/output/dogs"]) ∧
    (recordAccess 6 "/output/dogs" (recordAccess 5 "/output/cats"
        (recordAccess 4 "/output/cats" (recordAccess 3 "/output/cats"
          (recordAccess 2 "/output/cats"
            (recordAccess 1 "/output/cats" []))))) =
      [{ path := "/output/cats", timestamp := 5, count := 5 },
       { path := "/output/dogs", timestamp := 6, count := 1 }]) ∧
    (∀ (h : List FolderAccessHistory) (limit : Nat),
      (getFrequentPaths h limit).length ≤ limit) ∧
    (∀ (h : List FolderAccessHistory) (limit : Nat),
      ((sortByCountDesc h).take limit).Pairwise
        (fun a b => b.count ≤ a.count)) ∧
    (∀ (h : List FolderAccessHistory) (now : Nat) (p : String),
      h.any (fun r => r.path = p) = true → h.length ≤ maxHistorySize →
      (recordAccess now p h).length = h.length) := by
  refine ⟨by decide, by decide, ?_, ?_, ?_⟩
  · intro h limit
    simp only [getFrequentPaths, List.length_map, List.length_take]
    omega
  · intro h limit
    have hall := pairwise_stableSort
      (fun a b : FolderAccessHistory => decide (b.count < a.count))
      (by intro a b hab; simp at hab ⊢; omega)
      (by intro a b c h1 h2; simp at h1 h2 ⊢; omega) h
    have htake := List.Pairwise.sublist (List.take_sublist limit _) hall
    refine htake.imp ?_
    intro a b hab
    simpa using hab
  · intro h now p hany hlen
    rw [recordAccess, if_pos hany]
    have hlen1 := updateFirstAccess_length p now h
    rw [if_neg (by rw [hlen1]; omega)]
    exact hlen1

/-- Witness for C9: recording a repeat visit to the concrete two-record
history keeps its length at 2, and a frequency query returns at most 5
paths there. -/
theorem predictor_frequency_ranking_witness :
    (recordAccess 7 "/output/cats"
        [{ path := "/output/cats", timestamp := 5, count := 5 },
         { path := "/output/dogs", timestamp := 6, count := 1 }]).length =
      ([{ path := "/output/cats", timestamp := 5, count := 5 },
        { path := "/output/dogs", timestamp := 6, count := 1 }] :
        List FolderAccessHistory).length ∧
    (getFrequentPaths
        [{ path := "/output/cats", timestamp := 5, count := 5 },
         { path := "/output/dogs", timestamp := 6, count := 1 }] 5).length ≤
      5 :=
  ⟨predictor_frequency_ranking.2.2.2.2
      [{ path := "/output/cats", timestamp := 5, count := 5 },
       { path := "/output/dogs", timestamp := 6, count := 1 }]
      7 "/output/cats" (by decide) (by decide),
   predictor_frequency_ranking.2.2.1
      [{ path := "/output/cats", timestamp := 5, count := 5 },
       { path := "/output/dogs", timestamp := 6, count := 1 }] 5⟩

/-! ## C1: navigation epochs discard superseded reads -/

theorem completeRefresh_stale (p : PendingNav) (o : NavOutcome)
    (s : ExplorerState) (h : p.navigationId ≠ s.currentNavigationId) :
    completeRefresh p o s = s := by
  cases o <;> simp [completeRefresh, h]

theorem completeRefresh_navId (p : PendingNav) (o : NavOutcome)
    (s : ExplorerState) :
    (completeRefresh p o s).currentNavigationId = s.currentNavigationId := by
  cases o <;> simp only [completeRefresh, processData] <;> split <;> rfl

theorem startRefresh_navId (cachedData : Option Listing)
    (s : ExplorerState) :
    (startRefresh cachedData s).1.currentNavigationId =
      s.currentNavigationId + 1 := by
  cases cachedData <;> simp [startRefresh, processData]

theorem navStep_navId_mono (e : NavEvent) (s : ExplorerState) :
    s.currentNavigationId ≤ (navStep e s).currentNavigationId := by
  cases e with
  | navigate path cachedData =>
      have h1 := startRefresh_navId cachedData { s with currentPath := path }
      have h2 : ({ s with currentPath := path } :
          ExplorerState).currentNavigationId = s.currentNavigationId := rfl
      rw [h2] at h1
      simp only [navStep]
      omega
  | force => simp [navStep, startForceRefresh]
  | complete p o =>
      simp only [navStep, completeRefresh_navId]
      exact Nat.le_refl _

theorem navRun_navId_mono (evs : List NavEvent) (s : ExplorerState) :
    s.currentNavigationId ≤ (navRun evs s).currentNavigationId := by
  induction evs generalizing s with
  | nil => simp [navRun]
  | cons e rest ih =>
      calc s.currentNavigationId
          ≤ (navStep e s).currentNavigationId := navStep_navId_mono e s
        _ ≤ (navRun rest (navStep e s)).currentNavigationId :=
            ih (navStep e s)
        _ = (navRun (e :: rest) s).currentNavigationId := by
            simp [navRun]

/-- C1: every `refresh` / `forceRefresh` invocation captures a fresh,
strictly larger navigation id; any pending read whose captured id
differs from the current id at completion time is discarded without
touching items, loading or the toasts (the state is left exactly as it
was), while a current successful read is rendered; and in the race
"refresh for X, then refresh for Y before X's read settles", X's
pending read is stale from Y's start onward — after any further events
its completion changes nothing, so only Y's result is ever rendered. -/
theorem navigation_epoch_discard :
    (∀ (s : ExplorerState) (cachedData : Option Listing),
      (startRefresh cachedData s).1.currentNavigationId =
        s.currentNavigationId + 1 ∧
      ∀ p, (startRefresh cachedData s).2 = some p →
        p.navigationId = s.currentNavigationId + 1) ∧
    (∀ s : ExplorerState,
      (startForceRefresh s).1.currentNavigationId =
        s.currentNavigationId + 1 ∧
      (startForceRefresh s).2.navigationId = s.currentNavigationId + 1) ∧
    (∀ (e : NavEvent) (s : ExplorerState),
      s.currentNavigationId ≤ (navStep e s).currentNavigationId) ∧
    (∀ (p : PendingNav) (o : NavOutcome) (s : ExplorerState),
      p.navigationId ≠ s.currentNavigationId → completeRefresh p o s = s) ∧
    (∀ (p : PendingNav) (resData : Listing) (s : ExplorerState),
      p.navigationId = s.currentNavigationId →
      completeRefresh p (NavOutcome.success resData) s =
        { processData resData s with loading := false }) ∧
    (∀ (s : ExplorerState) (pathX pathY : String)
        (cachedY : Option Listing) (evs : List NavEvent) (o : NavOutcome),
      (startRefresh none { s with currentPath := pathX }).2 =
        some { navigationId := s.currentNavigationId + 1, path := pathX } ∧
      s.currentNavigationId + 1 <
        (navStep (NavEvent.navigate pathY cachedY)
          (startRefresh none
            { s with currentPath := pathX }).1).currentNavigationId ∧
      completeRefresh
          { navigationId := s.currentNavigationId + 1, path := pathX } o
          (navRun evs (navStep (NavEvent.navigate pathY cachedY)
            (startRefresh none { s with currentPath := pathX }).1)) =
        navRun evs (navStep (NavEvent.navigate pathY cachedY)
          (startRefresh none { s with currentPath := pathX }).1)) := by
  refine ⟨?_, ?_, navStep_navId_mono, completeRefresh_stale, ?_, ?_⟩
  · intro s cachedData
    refine ⟨startRefresh_navId cachedData s, ?_⟩
    intro p hp
    cases cachedData with
    | none =>
        simp only [startRefresh] at hp
        cases hp
        rfl
    | some cached => simp [startRefresh] at hp
  · intro s
    exact ⟨rfl, rfl⟩
  · intro p resData s h
    simp [completeRefresh, h]
  · intro s pathX pathY cachedY evs o
    have hid1 : (startRefresh none
        { s with currentPath := pathX }).1.currentNavigationId =
        s.currentNavigationId + 1 :=
      startRefresh_navId none { s with currentPath := pathX }
    have hid2 : (navStep (NavEvent.navigate pathY cachedY)
        (startRefresh none
          { s with currentPath := pathX }).1).currentNavigationId =
        s.currentNavigationId + 2 := by
      simp only [navStep]
      rw [startRefresh_navId cachedY _]
      simp [hid1]
    refine ⟨rfl, by omega, ?_⟩
    apply completeRefresh_stale
    have hmono := navRun_navId_mono evs (navStep
      (NavEvent.navigate pathY cachedY)
      (startRefresh none { s with currentPath := pathX }).1)
    simp only [hid2] at hmono
    simp only []
    omega

/-- Witness for C1 at concrete inputs: a stale completion (captured id 1,
current id 2) leaves a concrete state untouched, and a current
successful completion renders the listing and clears loading. -/
theorem navigation_epoch_discard_witness :
    completeRefresh { navigationId := 1, path := "/output/x" }
        (NavOutcome.failure "network down")
        { currentNavigationId := 2, currentPath := "/output/y", items := [],
          loading := true, selectedItems := [], toasts := [] } =
      { currentNavigationId := 2, currentPath := "/output/y", items := [],
        loading := true, selectedItems := [], toasts := [] } ∧
    completeRefresh { navigationId := 2, path := "/output/y" }
        (NavOutcome.success [{ name := "a", isFolder := false }])
        { currentNavigationId := 2, currentPath := "/output/y", items := [],
          loading := true, selectedItems := [], toasts := [] } =
      { processData [{ name := "a", isFolder := false }]
          { currentNavigationId := 2, currentPath := "/output/y",
            items := [], loading := true, selectedItems := [],
            toasts := [] } with loading := false } :=
  ⟨navigation_epoch_discard.2.2.2.1
      { navigationId := 1, path := "/output/x" }
      (NavOutcome.failure "network down")
      { currentNavigationId := 2, currentPath := "/output/y", items := [],
        loading := true, selectedItems := [], toasts := [] }
      (by decide),
   navigation_epoch_discard.2.2.2.2.1
      { navigationId := 2, path := "/output/y" }
      [{ name := "a", isFolder := false }]
      { currentNavigationId := 2, currentPath := "/output/y", items := [],
        loading := true, selectedItems := [], toasts := [] }
      rfl⟩
